import Mathlib

/-!
Shallow embedding of `crates/turbopack-core/src/resolve/options.rs`:
the module-resolution policy engine of the turbo bundler (import maps,
resolved maps, wildcard-capture substitution, and resolve options),
together with theorems settling the specification claims about it.

External collaborators (filesystem paths, the glob engine, the alias
table, request parsing, resolution outcomes) are embedded at their
interface boundary, as the specification prescribes.
-/

namespace Turbo

/-- Embedding of `FileSystemPathVc` (external collaborator).
Modelled from the spec: a filesystem path handle is identity-comparable
and supports computing the path relative to a root; we represent a path
as its list of segments. -/
abbrev FileSystemPath := List String

/-- Embedding of `Glob` / `GlobVc` (external collaborator).
Modelled from the spec: the glob engine is used only through
`execute(candidate: string) -> bool`, so a glob is embedded as an
arbitrary boolean predicate on strings. -/
abbrev Glob := String → Bool

/-- Embedding of `RequestVc` (external collaborator).
Modelled from the spec: a request value carries an optional string form
(`request()`), absent for non-string/dynamic requests. -/
structure Request where
  request : Option String
deriving DecidableEq, Repr

/-- Embedding of `RequestVc::parse` (external collaborator).
Modelled from the spec: a request value is parseable from a string; the
parsed request keeps that string as its string form. -/
def Request.parse (s : String) : Request := ⟨some s⟩

/-- Embedding of `SpecialType` (external, from `super::ResolveResult`).
Modelled from the spec: the tags of terminal special resolution
outcomes: external (optionally with an explicit name), ignore, empty. -/
inductive SpecialType where
  | originalReferenceExternal
  | originalReferenceTypeExternal (req : String)
  | ignore
  | empty
deriving DecidableEq, Repr

/-- Embedding of `ResolveResult` (external collaborator).
Modelled from the spec: a resolution-outcome value constructible from a
tagged special outcome plus a dependency list (always empty here); the
dependency list is kept as a list of units. -/
inductive ResolveResult where
  | special (ty : SpecialType) (refs : List Unit)
deriving DecidableEq, Repr

/-- Embedding of `LockedVersions` (an empty shared value struct). -/
structure LockedVersions where
deriving DecidableEq, Repr

/-- Embedding of the `ResolveModules` enum: where module search roots
come from. -/
inductive ResolveModules where
  | nested (path : FileSystemPath) (dirs : List String)
  | path (p : FileSystemPath)
  | registry (p : FileSystemPath) (lockfile : LockedVersions)
deriving DecidableEq, Repr

/-- Embedding of the `ConditionValue` enum. -/
inductive ConditionValue where
  | set
  | unset
  | unknown
deriving DecidableEq, Repr

/-- Embedding of `impl From<bool> for ConditionValue`. -/
def ConditionValue.ofBool (v : Bool) : ConditionValue :=
  if v then ConditionValue.set else ConditionValue.unset

/-- Embedding of the `ResolveIntoPackage` enum: how to enter a resolved
package directory. The `BTreeMap` of conditions is embedded as an
association list ordered by key. -/
inductive ResolveIntoPackage where
  | exportsField (field : String) (conditions : List (String × ConditionValue))
      (unspecified_conditions : ConditionValue)
  | mainField (field : String)
  | default (file : String)
deriving DecidableEq, Repr

/-- Embedding of the `ImportMapping` enum: one rewrite action. -/
inductive ImportMapping where
  | external (name : Option String)
  | primaryAlternative (name : String) (context : Option FileSystemPath)
  | ignore
  | empty
  | alternatives (list : List ImportMapping)

instance : Inhabited ImportMapping := ⟨ImportMapping.ignore⟩

/-- Embedding of `ImportMapping::primary_alternatives`. -/
def ImportMapping.primary_alternatives (list : List String)
    (context : Option FileSystemPath) : ImportMapping :=
  if list.isEmpty then
    ImportMapping.ignore
  else if list.length = 1 then
    ImportMapping.primaryAlternative (list.headD "") context
  else
    ImportMapping.alternatives
      (list.map (fun s => ImportMapping.primaryAlternative s context))

mutual

/-- Embedding of `ImportMapping::replace` (the `AliasTemplate` impl):
wildcard-capture substitution. `anyhow::Result` is embedded as
`Except String`; `str::replace('*', capture)` replaces every `*`. -/
def ImportMapping.replace (m : ImportMapping) (capture : String) :
    Except String ImportMapping :=
  match m with
  | ImportMapping.external (some name) =>
      Except.ok (ImportMapping.external (some (name.replace "*" capture)))
  | ImportMapping.external none => Except.ok (ImportMapping.external none)
  | ImportMapping.primaryAlternative name context =>
      Except.ok (ImportMapping.primaryAlternative (name.replace "*" capture) context)
  | ImportMapping.ignore => Except.ok ImportMapping.ignore
  | ImportMapping.empty => Except.ok ImportMapping.empty
  | ImportMapping.alternatives alts =>
      (ImportMapping.replaceList alts capture).map ImportMapping.alternatives

/-- The `alternatives.iter().map(|m| m.replace(capture)).collect::<Result<Vec<_>>>()`
part of `ImportMapping::replace`: substitute each element in order,
failing fast on the first error. -/
def ImportMapping.replaceList (l : List ImportMapping) (capture : String) :
    Except String (List ImportMapping) :=
  match l with
  | [] => Except.ok []
  | m :: ms => do
      let m' ← m.replace capture
      let ms' ← ImportMapping.replaceList ms capture
      Except.ok (m' :: ms')

end

/-- Embedding of `ImportMap`: the `direct` alias table (an external
collaborator) is embedded at its interface boundary as the function
giving, for each request string, the sequence of matching mapping
values, best match first. -/
structure ImportMap where
  direct : String → List ImportMapping
  by_glob : List (Glob × ImportMapping)

/-- Embedding of `ResolvedMap`. -/
structure ResolvedMap where
  by_glob : List (FileSystemPath × Glob × ImportMapping)

/-- Embedding of the `ImportMapResult` enum: the outcome of evaluating a
mapping. -/
inductive ImportMapResult where
  | result (r : ResolveResult)
  | alias (request : Request) (context : Option FileSystemPath)
  | alternatives (list : List ImportMapResult)
  | noEntry

instance : Inhabited ImportMapResult := ⟨ImportMapResult.noEntry⟩

mutual

/-- Embedding of `import_mapping_to_result`. -/
def import_mapping_to_result (mapping : ImportMapping) : ImportMapResult :=
  match mapping with
  | ImportMapping.external name =>
      ImportMapResult.result
        (ResolveResult.special
          (name.elim SpecialType.originalReferenceExternal
            (fun req => SpecialType.originalReferenceTypeExternal req)) [])
  | ImportMapping.ignore =>
      ImportMapResult.result (ResolveResult.special SpecialType.ignore [])
  | ImportMapping.empty =>
      ImportMapResult.result (ResolveResult.special SpecialType.empty [])
  | ImportMapping.primaryAlternative name context =>
      ImportMapResult.alias (Request.parse name) context
  | ImportMapping.alternatives list =>
      ImportMapResult.alternatives (import_mapping_list_to_result list)

/-- The `list.iter().map(import_mapping_to_result).collect()` part of
`import_mapping_to_result`. -/
def import_mapping_list_to_result (l : List ImportMapping) : List ImportMapResult :=
  match l with
  | [] => []
  | m :: ms => import_mapping_to_result m :: import_mapping_list_to_result ms

end

/-- The `request_string_without_slash` computation in `ImportMapVc::lookup`:
when the request string ends with a slash, slice off its final byte.
Since a slash is a one-byte character, the test that the string ends
with a slash is the test that its last character is a slash, and the
byte slice drops exactly that character. -/
def stripTrailingSlash (s : String) : String :=
  if s.data.getLast? = some '/' then String.mk s.data.dropLast else s

/-- The `for (glob, mapping) in this.by_glob.iter()` loop of
`ImportMapVc::lookup`: first glob match wins. -/
def lookupByGlob (l : List (Glob × ImportMapping)) (s : String) :
    Option ImportMapping :=
  match l with
  | [] => none
  | (glob, mapping) :: rest =>
      if glob s then some mapping else lookupByGlob rest s

/-- Embedding of `ImportMapVc::lookup`. -/
def ImportMap.lookup (m : ImportMap) (request : Request) : ImportMapResult :=
  match request.request with
  | some request_string =>
      match (m.direct request_string).head? with
      | some result => import_mapping_to_result result
      | none =>
          match lookupByGlob m.by_glob (stripTrailingSlash request_string) with
          | some mapping => import_mapping_to_result mapping
          | none => ImportMapResult.noEntry
  | none => ImportMapResult.noEntry

/-- Embedding of `FileSystemPathVc::get_path_to` (external collaborator).
Modelled from the spec: computes the path of `p` relative to `root`,
absent when `p` is not under `root`; the relative path handed to the
glob engine is the `/`-joined remainder of the segments. -/
def FileSystemPath.get_path_to (root p : FileSystemPath) : Option String :=
  if root.isPrefixOf p then
    some (String.intercalate "/" (p.drop root.length))
  else
    none

/-- The `for (root, glob, mapping) in this.by_glob.iter()` loop of
`ResolvedMapVc::lookup`. -/
def lookupResolvedByGlob (l : List (FileSystemPath × Glob × ImportMapping))
    (resolved : FileSystemPath) : ImportMapResult :=
  match l with
  | [] => ImportMapResult.noEntry
  | (root, glob, mapping) :: rest =>
      match FileSystemPath.get_path_to root resolved with
      | some path =>
          if glob path then import_mapping_to_result mapping
          else lookupResolvedByGlob rest resolved
      | none => lookupResolvedByGlob rest resolved

/-- Embedding of `ResolvedMapVc::lookup`. -/
def ResolvedMap.lookup (m : ResolvedMap) (resolved : FileSystemPath) :
    ImportMapResult :=
  lookupResolvedByGlob m.by_glob resolved

/-- Embedding of the `ResolveOptions` struct. -/
structure ResolveOptions where
  extensions : List String
  modules : List ResolveModules
  into_package : List ResolveIntoPackage
  import_map : Option ImportMap
  resolved_map : Option ResolvedMap
  placeholder_for_future_extensions : Unit

/-- Embedding of the `ResolveModulesOptions` struct. -/
structure ResolveModulesOptions where
  modules : List ResolveModules
deriving DecidableEq, Repr

/-- Embedding of `ResolveOptionsVc::modules`: the narrowed module-search
view (named `modulesView` because the struct field already uses the
name `modules`). -/
def ResolveOptions.modulesView (o : ResolveOptions) : ResolveModulesOptions :=
  { modules := o.modules }

/-- Embedding of the free function `resolve_modules_options`. -/
def resolve_modules_options (options : ResolveOptions) : ResolveModulesOptions :=
  { modules := options.modules }

/-! ### Helper functions and lemmas -/

mutual

/-- The total substitution function underlying `ImportMapping.replace`:
`replace` always returns `Except.ok` of this value. -/
def replaceF (m : ImportMapping) (capture : String) : ImportMapping :=
  match m with
  | ImportMapping.external (some name) =>
      ImportMapping.external (some (name.replace "*" capture))
  | ImportMapping.external none => ImportMapping.external none
  | ImportMapping.primaryAlternative name context =>
      ImportMapping.primaryAlternative (name.replace "*" capture) context
  | ImportMapping.ignore => ImportMapping.ignore
  | ImportMapping.empty => ImportMapping.empty
  | ImportMapping.alternatives alts =>
      ImportMapping.alternatives (replaceListF alts capture)

/-- Elementwise total substitution on a list of mappings. -/
def replaceListF (l : List ImportMapping) (capture : String) : List ImportMapping :=
  match l with
  | [] => []
  | m :: ms => replaceF m capture :: replaceListF ms capture

end

mutual

/-- Substitution via `ImportMapping.replace` never fails: it returns
`Except.ok` of the total substitution `replaceF`. -/
theorem replace_eq_ok (m : ImportMapping) (c : String) :
    m.replace c = Except.ok (replaceF m c) :=
  match m with
  | ImportMapping.external (some _) => rfl
  | ImportMapping.external none => rfl
  | ImportMapping.primaryAlternative _ _ => rfl
  | ImportMapping.ignore => rfl
  | ImportMapping.empty => rfl
  | ImportMapping.alternatives alts => by
      rw [ImportMapping.replace, replaceList_eq_ok alts c]
      rfl

/-- List substitution via `ImportMapping.replaceList` never fails either. -/
theorem replaceList_eq_ok (l : List ImportMapping) (c : String) :
    ImportMapping.replaceList l c = Except.ok (replaceListF l c) :=
  match l with
  | [] => rfl
  | m :: ms => by
      rw [ImportMapping.replaceList, replace_eq_ok m c, replaceList_eq_ok ms c]
      rfl

end

mutual

/-- Shape comparison of two mappings: same variant tag, same arity
(including, recursively, on alternative lists), optional payloads
present on both sides or neither, and the `primaryAlternative` root
component equal; string payloads are not compared. -/
def sameShape (m m' : ImportMapping) : Bool :=
  match m, m' with
  | ImportMapping.external none, ImportMapping.external none => true
  | ImportMapping.external (some _), ImportMapping.external (some _) => true
  | ImportMapping.primaryAlternative _ r, ImportMapping.primaryAlternative _ r' =>
      r == r'
  | ImportMapping.ignore, ImportMapping.ignore => true
  | ImportMapping.empty, ImportMapping.empty => true
  | ImportMapping.alternatives l, ImportMapping.alternatives l' =>
      sameShapeList l l'
  | _, _ => false

/-- Pointwise shape comparison of two mapping lists of equal length. -/
def sameShapeList (l l' : List ImportMapping) : Bool :=
  match l, l' with
  | [], [] => true
  | m :: ms, m' :: ms' => sameShape m m' && sameShapeList ms ms'
  | [], _ :: _ => false
  | _ :: _, [] => false

end

mutual

/-- Total substitution preserves the shape of a mapping. -/
theorem sameShape_replaceF (m : ImportMapping) (c : String) :
    sameShape m (replaceF m c) = true :=
  match m with
  | ImportMapping.external (some _) => rfl
  | ImportMapping.external none => rfl
  | ImportMapping.primaryAlternative _ r => by
      rw [replaceF, sameShape]
      exact beq_self_eq_true r
  | ImportMapping.ignore => rfl
  | ImportMapping.empty => rfl
  | ImportMapping.alternatives alts => by
      rw [replaceF, sameShape]
      exact sameShapeList_replaceListF alts c

/-- Elementwise total substitution preserves the shape of a list. -/
theorem sameShapeList_replaceListF (l : List ImportMapping) (c : String) :
    sameShapeList l (replaceListF l c) = true :=
  match l with
  | [] => rfl
  | m :: ms => by
      rw [replaceListF, sameShapeList, sameShape_replaceF m c,
        sameShapeList_replaceListF ms c]
      rfl

end

/-- The function `ImportMapping.replaceList` is the fail-fast monadic map of
`ImportMapping.replace` over the list, in order. -/
theorem replaceList_eq_mapM (l : List ImportMapping) (c : String) :
    ImportMapping.replaceList l c = l.mapM (fun m => m.replace c) := by
  induction l with
  | nil => rfl
  | cons m ms ih =>
      rw [ImportMapping.replaceList, List.mapM_cons, ih]
      rfl

/-- The list arm of the interpretation function is `List.map`. -/
theorem import_mapping_list_to_result_eq_map (l : List ImportMapping) :
    import_mapping_list_to_result l = l.map import_mapping_to_result := by
  induction l with
  | nil => rfl
  | cons m ms ih => rw [import_mapping_list_to_result, ih, List.map_cons]

/-- The interpretation function never produces `noEntry`. -/
theorem import_mapping_to_result_ne_noEntry (m : ImportMapping) :
    import_mapping_to_result m ≠ ImportMapResult.noEntry := by
  cases m <;> simp [import_mapping_to_result]

/-- The glob loop of `ImportMap.lookup` finds nothing exactly when every
glob in the list rejects the candidate string. -/
theorem lookupByGlob_eq_none_iff (l : List (Glob × ImportMapping)) (s : String) :
    lookupByGlob l s = none ↔ ∀ p ∈ l, p.1 s = false := by
  induction l with
  | nil => simp [lookupByGlob]
  | cons p rest ih =>
      obtain ⟨g, mp⟩ := p
      rw [lookupByGlob]
      by_cases hg : g s = true
      · rw [if_pos hg]
        constructor
        · intro h
          exact (Option.some_ne_none mp h).elim
        · intro h
          have hfalse : g s = false := h (g, mp) (List.mem_cons_self _ _)
          rw [hg] at hfalse
          exact absurd hfalse (by simp)
      · have hgf : g s = false := by
          revert hg
          cases g s <;> simp
        rw [if_neg hg, ih]
        constructor
        · intro h q hq
          rcases List.mem_cons.mp hq with h1 | h2
          · rw [h1]
            exact hgf
          · exact h q h2
        · intro h q hq
          exact h q (List.mem_cons_of_mem _ hq)

/-- The glob loop of `ImportMap.lookup` returns the first match. -/
theorem lookupByGlob_first_match (pre post : List (Glob × ImportMapping))
    (g : Glob) (mp : ImportMapping) (s : String)
    (hpre : ∀ p ∈ pre, p.1 s = false) (hg : g s = true) :
    lookupByGlob (pre ++ (g, mp) :: post) s = some mp := by
  induction pre with
  | nil => simp [lookupByGlob, hg]
  | cons p rest ih =>
      obtain ⟨g', mp'⟩ := p
      have h' : g' s = false := hpre (g', mp') (List.mem_cons_self _ _)
      rw [List.cons_append, lookupByGlob, h']
      exact ih (fun q hq => hpre q (List.mem_cons_of_mem _ hq))

/-- The relative path of `get_path_to` is absent exactly when the root is not an
ancestor (segment prefix) of the path. -/
theorem get_path_to_eq_none_iff (root p : FileSystemPath) :
    FileSystemPath.get_path_to root p = none ↔ ¬ root <+: p := by
  rw [FileSystemPath.get_path_to]
  by_cases h : root <+: p
  · rw [if_pos (List.isPrefixOf_iff_prefix.mpr h)]
    simp [h]
  · rw [if_neg (fun hb => h (List.isPrefixOf_iff_prefix.mp hb))]
    simp [h]

/-- When the root is an ancestor, `get_path_to` yields the root-relative
remainder of the path, joined with `/`. -/
theorem get_path_to_eq_some (root p : FileSystemPath) (h : root <+: p) :
    FileSystemPath.get_path_to root p
      = some (String.intercalate "/" (p.drop root.length)) := by
  rw [FileSystemPath.get_path_to, if_pos (List.isPrefixOf_iff_prefix.mpr h)]

/-- The loop of `ResolvedMap.lookup` yields `noEntry` when every entry
either has a non-ancestor root or a glob rejecting the relative path. -/
theorem lookupResolvedByGlob_eq_noEntry
    (l : List (FileSystemPath × Glob × ImportMapping)) (p : FileSystemPath)
    (h : ∀ e ∈ l, ∀ rel, FileSystemPath.get_path_to e.1 p = some rel →
      e.2.1 rel = false) :
    lookupResolvedByGlob l p = ImportMapResult.noEntry := by
  induction l with
  | nil => rfl
  | cons e rest ih =>
      obtain ⟨root, g, mp⟩ := e
      rw [lookupResolvedByGlob]
      cases hgp : FileSystemPath.get_path_to root p with
      | none =>
          exact ih (fun q hq => h q (List.mem_cons_of_mem _ hq))
      | some rel =>
          have hrel : g rel = false :=
            h (root, g, mp) (List.mem_cons_self _ _) rel hgp
          simp only [hrel, Bool.false_eq_true, if_false]
          exact ih (fun q hq => h q (List.mem_cons_of_mem _ hq))

/-! ### Claim theorems -/

/-- Claim C2: `import_mapping_to_result` is a pure, total function and
maps each `ImportMapping` variant as specified — `External(None)` to the
terminal unspecified-external result, `External(Some(name))` to the
terminal external result carrying `name`, `Ignore` to the terminal
ignore result, `Empty` to the terminal empty result,
`PrimaryAlternative(name, root)` to `Alias(parse(name), root)`, and
`Alternatives(list)` to `Alternatives` of the element-wise
interpretations in the same order; in particular interpreting
`Alternatives([Ignore, External(None)])` yields the ordered pair of the
ignore and external outcomes. -/
theorem import_mapping_to_result_cases (name : String)
    (root : Option FileSystemPath) (l : List ImportMapping) :
    import_mapping_to_result (ImportMapping.external none)
      = ImportMapResult.result
          (ResolveResult.special SpecialType.originalReferenceExternal []) ∧
    import_mapping_to_result (ImportMapping.external (some name))
      = ImportMapResult.result
          (ResolveResult.special (SpecialType.originalReferenceTypeExternal name) []) ∧
    import_mapping_to_result ImportMapping.ignore
      = ImportMapResult.result (ResolveResult.special SpecialType.ignore []) ∧
    import_mapping_to_result ImportMapping.empty
      = ImportMapResult.result (ResolveResult.special SpecialType.empty []) ∧
    import_mapping_to_result (ImportMapping.primaryAlternative name root)
      = ImportMapResult.alias (Request.parse name) root ∧
    import_mapping_to_result (ImportMapping.alternatives l)
      = ImportMapResult.alternatives (l.map import_mapping_to_result) ∧
    import_mapping_to_result
        (ImportMapping.alternatives [ImportMapping.ignore, ImportMapping.external none])
      = ImportMapResult.alternatives
          [ImportMapResult.result (ResolveResult.special SpecialType.ignore []),
           ImportMapResult.result
             (ResolveResult.special SpecialType.originalReferenceExternal [])] := by
  refine ⟨rfl, rfl, rfl, rfl, rfl, ?_, rfl⟩
  rw [import_mapping_to_result, import_mapping_list_to_result_eq_map]

/-- Claim C6: for every mapping `m` and capture string `c`, `replace`
succeeds with a result of the same structural shape as `m` (same variant
tag and arity, only string payloads changed, the `PrimaryAlternative`
root component unchanged), and on the payload-free variants `Ignore` and
`Empty` it returns `m` itself, hence is idempotent there. -/
theorem replace_shape_preserving (m : ImportMapping) (c : String) :
    (∃ m', m.replace c = Except.ok m' ∧ sameShape m m' = true) ∧
    ImportMapping.ignore.replace c = Except.ok ImportMapping.ignore ∧
    ImportMapping.empty.replace c = Except.ok ImportMapping.empty :=
  ⟨⟨replaceF m c, replace_eq_ok m c, sameShape_replaceF m c⟩, rfl, rfl⟩

/-- Claim C7: on `Alternatives(list)`, `replace` is exactly the
fail-fast monadic traversal of `replace` over the elements in list
order (so a failing element would fail the whole call with no partial
list); since no element substitution can in fact fail, the call
succeeds with `Alternatives` of the element-wise total substitutions in
the same order. -/
theorem replace_alternatives_fail_fast (l : List ImportMapping) (c : String) :
    (ImportMapping.alternatives l).replace c
      = (l.mapM (fun m : ImportMapping => m.replace c)).map ImportMapping.alternatives ∧
    (ImportMapping.alternatives l).replace c
      = Except.ok (ImportMapping.alternatives (l.map (fun m => replaceF m c))) := by
  constructor
  · rw [ImportMapping.replace, replaceList_eq_mapM]
  · rw [replace_eq_ok, replaceF]
    have : replaceListF l c = l.map (fun m => replaceF m c) := by
      induction l with
      | nil => rfl
      | cons m ms ih => rw [replaceListF, ih, List.map_cons]
    rw [this]

/-- Claim C1: whenever the request has a string form and the direct
alias table has at least one match for it, `ImportMap.lookup` returns
the interpretation of the first direct match; the `by_glob` list is
universally quantified, so the result is independent of it even when
some glob entry would also match the request. -/
theorem lookup_direct_first (direct : String → List ImportMapping)
    (bg : List (Glob × ImportMapping)) (req : Request) (rs : String)
    (first : ImportMapping) (rest : List ImportMapping)
    (hreq : req.request = some rs) (hdirect : direct rs = first :: rest) :
    ImportMap.lookup ⟨direct, bg⟩ req = import_mapping_to_result first := by
  rw [ImportMap.lookup, hreq]
  simp only [hdirect, List.head?]

/-- Witness for C1: a direct-table hit wins even though the (always
matching) glob entry matches the request too. -/
theorem lookup_direct_first_witness :
    ImportMap.lookup
        ⟨fun _ => [ImportMapping.ignore], [(fun _ => true, ImportMapping.empty)]⟩
        ⟨some "react"⟩
      = ImportMapResult.result (ResolveResult.special SpecialType.ignore []) :=
  lookup_direct_first (fun _ => [ImportMapping.ignore])
    [(fun _ => true, ImportMapping.empty)] ⟨some "react"⟩ "react"
    ImportMapping.ignore [] rfl rfl

/-- Claim C4: when the direct table has no match for the request
string, `ImportMap.lookup` returns the interpretation of the mapping of
the first `by_glob` entry (in list order) whose glob matches the
normalized request string, even when a later entry (the universally
quantified `post`) would also match. -/
theorem lookup_by_glob_first_match_wins (direct : String → List ImportMapping)
    (pre post : List (Glob × ImportMapping)) (g : Glob) (mp : ImportMapping)
    (req : Request) (rs : String)
    (hreq : req.request = some rs) (hdirect : direct rs = [])
    (hpre : ∀ p ∈ pre, p.1 (stripTrailingSlash rs) = false)
    (hg : g (stripTrailingSlash rs) = true) :
    ImportMap.lookup ⟨direct, pre ++ (g, mp) :: post⟩ req
      = import_mapping_to_result mp := by
  rw [ImportMap.lookup, hreq]
  simp only [hdirect, List.head?]
  rw [lookupByGlob_first_match pre post g mp _ hpre hg]

/-- Witness for C4: the second glob entry is the first match and wins
over the later (also matching) third entry; the first entry rejects. -/
theorem lookup_by_glob_first_match_wins_witness :
    ImportMap.lookup
        ⟨fun _ => [],
         [(fun _ => false, ImportMapping.empty),
          (fun _ => true, ImportMapping.ignore),
          (fun _ => true, ImportMapping.empty)]⟩
        ⟨some "styles.css"⟩
      = ImportMapResult.result (ResolveResult.special SpecialType.ignore []) :=
  lookup_by_glob_first_match_wins (fun _ => [])
    [(fun _ => false, ImportMapping.empty)]
    [(fun _ => true, ImportMapping.empty)]
    (fun _ => true) ImportMapping.ignore ⟨some "styles.css"⟩ "styles.css"
    rfl rfl (by intro p hp; simp at hp; rw [hp]) rfl

/-- Claim C5: normalization strips exactly one trailing `/` and only
affects glob matching — a request with one added trailing slash takes
the same `by_glob` decision as the request itself, while the direct
table is consulted with the original, unnormalized string (the last
conjunct: a direct hit for the slash-suffixed string decides the
lookup, even though normalization would have erased that slash). -/
theorem lookup_trailing_slash_normalization (m : ImportMap) (rs : String)
    (hs : rs.data.getLast? ≠ some '/') :
    stripTrailingSlash (rs ++ "/") = rs ∧
    stripTrailingSlash rs = rs ∧
    stripTrailingSlash (rs ++ "//") = rs ++ "/" ∧
    (m.direct rs = [] → m.direct (rs ++ "/") = [] →
      ImportMap.lookup m ⟨some (rs ++ "/")⟩ = ImportMap.lookup m ⟨some rs⟩) ∧
    (∀ first rest, m.direct (rs ++ "/") = first :: rest →
      ImportMap.lookup m ⟨some (rs ++ "/")⟩ = import_mapping_to_result first) := by
  have hone : stripTrailingSlash (rs ++ "/") = rs := by
    rw [stripTrailingSlash]
    rw [if_pos]
    · rw [String.data_append]
      show String.mk ((rs.data ++ ['/']).dropLast) = rs
      rw [List.dropLast_concat]
    · rw [String.data_append]
      exact List.getLast?_concat rs.data
  have hid : stripTrailingSlash rs = rs := by
    rw [stripTrailingSlash, if_neg hs]
  refine ⟨hone, hid, ?_, ?_, ?_⟩
  · rw [stripTrailingSlash]
    rw [if_pos]
    · have hdata : (rs ++ "//").data = (rs ++ "/").data ++ ['/'] := by
        rw [String.data_append, String.data_append]
        show rs.data ++ ['/', '/'] = (rs.data ++ ['/']) ++ ['/']
        simp
      rw [hdata]
      show String.mk (((rs ++ "/").data ++ ['/']).dropLast) = rs ++ "/"
      rw [List.dropLast_concat]
    · rw [String.data_append]
      show (rs.data ++ ['/', '/']).getLast? = some '/'
      have : rs.data ++ ['/', '/'] = (rs.data ++ ['/']) ++ ['/'] := by
        simp
      rw [this]
      exact List.getLast?_concat _
  · intro hd hd'
    rw [ImportMap.lookup, ImportMap.lookup]
    simp only [hd, hd', List.head?, hone, hid]
  · intro first rest hd
    rw [ImportMap.lookup]
    simp only [hd, List.head?]

/-- Witness for C5: concrete check at `rs = "foo"` with a direct table
that matches only the slash-suffixed string, showing the direct table
sees the unnormalized request. -/
theorem lookup_trailing_slash_normalization_witness :
    ImportMap.lookup
        ⟨fun s => if s = "foo/" then [ImportMapping.empty] else [], []⟩
        ⟨some ("foo" ++ "/")⟩
      = ImportMapResult.result (ResolveResult.special SpecialType.empty []) :=
  (lookup_trailing_slash_normalization
      ⟨fun s => if s = "foo/" then [ImportMapping.empty] else [], []⟩
      "foo" (by decide)).2.2.2.2 ImportMapping.empty [] rfl

/-- Claim C8: `ImportMap.lookup` returns `NoEntry` exactly when the
request has no string form, or when it has one matched by neither the
direct table nor any `by_glob` entry (on the normalized string). -/
theorem lookup_noEntry_iff (m : ImportMap) (req : Request) :
    ImportMap.lookup m req = ImportMapResult.noEntry ↔
      req.request = none ∨
        ∃ rs, req.request = some rs ∧ m.direct rs = [] ∧
          ∀ p ∈ m.by_glob, p.1 (stripTrailingSlash rs) = false := by
  cases hreq : req.request with
  | none =>
      rw [ImportMap.lookup, hreq]
      simp [hreq]
  | some rs =>
      rw [ImportMap.lookup, hreq]
      cases hd : (m.direct rs).head? with
      | some r =>
          simp only [hd]
          constructor
          · intro h
            exact (import_mapping_to_result_ne_noEntry r h).elim
          · rintro (h | ⟨rs', hrs', hnil, _⟩)
            · exact Option.noConfusion h
            · rw [Option.some_inj] at hrs'
              subst hrs'
              rw [hnil] at hd
              exact Option.noConfusion hd
      | none =>
          have hnil : m.direct rs = [] := List.head?_eq_none_iff.mp hd
          simp only [hd]
          cases hbg : lookupByGlob m.by_glob (stripTrailingSlash rs) with
          | some mp =>
              simp only [hbg]
              constructor
              · intro h
                exact (import_mapping_to_result_ne_noEntry mp h).elim
              · rintro (h | ⟨rs', hrs', _, hall⟩)
                · exact Option.noConfusion h
                · rw [Option.some_inj] at hrs'
                  subst hrs'
                  rw [(lookupByGlob_eq_none_iff _ _).mpr hall] at hbg
                  exact Option.noConfusion hbg
          | none =>
              simp only [hbg]
              constructor
              · intro _
                exact Or.inr ⟨rs, rfl, hnil, (lookupByGlob_eq_none_iff _ _).mp hbg⟩
              · intro _
                trivial

/-- Witness for C8: a request with no string form short-circuits to
`NoEntry`. -/
theorem lookup_noEntry_iff_witness :
    ImportMap.lookup ⟨fun _ => [ImportMapping.ignore], []⟩ ⟨none⟩
      = ImportMapResult.noEntry :=
  (lookup_noEntry_iff ⟨fun _ => [ImportMapping.ignore], []⟩ ⟨none⟩).mpr
    (Or.inl rfl)

/-- Claim C3: `ResolvedMap.lookup` walks the ordered (root, glob,
mapping) entries; an entry whose root is not an ancestor of the
resolved path is skipped (and the relative path is absent exactly for
non-ancestors); for an ancestor root the glob is matched only against
the root-relative remainder of the path, never against the absolute
path; the first entry whose glob accepts decides the result, a
rejecting entry is skipped, and if no entry matches the result is
`NoEntry`. -/
theorem resolved_map_lookup_spec (root : FileSystemPath) (g : Glob)
    (mp : ImportMapping) (rest : List (FileSystemPath × Glob × ImportMapping))
    (p : FileSystemPath) :
    (¬ root <+: p →
      ResolvedMap.lookup ⟨(root, g, mp) :: rest⟩ p
        = ResolvedMap.lookup ⟨rest⟩ p) ∧
    (FileSystemPath.get_path_to root p = none ↔ ¬ root <+: p) ∧
    (root <+: p →
      FileSystemPath.get_path_to root p
        = some (String.intercalate "/" (p.drop root.length))) ∧
    (∀ rel, FileSystemPath.get_path_to root p = some rel → g rel = true →
      ResolvedMap.lookup ⟨(root, g, mp) :: rest⟩ p
        = import_mapping_to_result mp) ∧
    (∀ rel, FileSystemPath.get_path_to root p = some rel → g rel = false →
      ResolvedMap.lookup ⟨(root, g, mp) :: rest⟩ p
        = ResolvedMap.lookup ⟨rest⟩ p) ∧
    (∀ rm : ResolvedMap,
      (∀ e ∈ rm.by_glob, ∀ rel, FileSystemPath.get_path_to e.1 p = some rel →
        e.2.1 rel = false) →
      ResolvedMap.lookup rm p = ImportMapResult.noEntry) := by
  refine ⟨?_, get_path_to_eq_none_iff root p, get_path_to_eq_some root p,
    ?_, ?_, ?_⟩
  · intro h
    rw [ResolvedMap.lookup, lookupResolvedByGlob]
    simp only [(get_path_to_eq_none_iff root p).mpr h]
    rfl
  · intro rel hrel hg
    rw [ResolvedMap.lookup, lookupResolvedByGlob]
    simp only [hrel, hg, if_true]
  · intro rel hrel hg
    rw [ResolvedMap.lookup, lookupResolvedByGlob]
    simp only [hrel, hg, Bool.false_eq_true, if_false]
    rfl
  · intro rm h
    exact lookupResolvedByGlob_eq_noEntry rm.by_glob p h

/-- Witness for C3: a single entry whose root is not an ancestor of the
resolved path is skipped even though its glob accepts everything, so
the lookup falls through to `NoEntry`. -/
theorem resolved_map_lookup_spec_witness :
    ResolvedMap.lookup ⟨[(["root"], fun _ => true, ImportMapping.ignore)]⟩
        ["other", "file.css"]
      = ImportMapResult.noEntry :=
  ((resolved_map_lookup_spec ["root"] (fun _ => true) ImportMapping.ignore []
      ["other", "file.css"]).1 (by decide)).trans rfl

/-- Claim C9: the `modules` view of `ResolveOptions` carries exactly
the `modules` sequence of its source, and depends only on that field —
two options that agree on `modules` but differ in `extensions`,
`into_package`, `import_map`, or `resolved_map` produce equal views
(and the free function `resolve_modules_options` computes the same
view). -/
theorem modules_view_isolation (o₁ o₂ : ResolveOptions)
    (h : o₁.modules = o₂.modules) :
    (ResolveOptions.modulesView o₁).modules = o₁.modules ∧
    ResolveOptions.modulesView o₁ = ResolveOptions.modulesView o₂ ∧
    resolve_modules_options o₁ = ResolveOptions.modulesView o₁ ∧
    resolve_modules_options o₁ = resolve_modules_options o₂ := by
  refine ⟨rfl, ?_, rfl, ?_⟩
  · rw [ResolveOptions.modulesView, ResolveOptions.modulesView, h]
  · rw [resolve_modules_options, resolve_modules_options, h]

/-- Witness for C9: two options sharing the `modules` list but
differing in extensions, package-entry strategies, import map and
resolved map have equal `modules` views. -/
theorem modules_view_isolation_witness :
    ResolveOptions.modulesView
        ⟨["js"], [ResolveModules.path ["a"]],
         [ResolveIntoPackage.mainField "main"], some ⟨fun _ => [], []⟩,
         none, ()⟩
      = ResolveOptions.modulesView
        ⟨["ts", "tsx"], [ResolveModules.path ["a"]], [], none, some ⟨[]⟩, ()⟩ :=
  (modules_view_isolation _ _ rfl).2.1

/-- Claim C10: `ImportMapping.replace` always succeeds — despite its
fallible `Result` signature, every variant, including every element of
arbitrarily nested `Alternatives` lists, substitutes without error. -/
theorem replace_always_ok (m : ImportMapping) (c : String) :
    ∃ m', m.replace c = Except.ok m' :=
  ⟨replaceF m c, replace_eq_ok m c⟩

end Turbo
